import Mathlib

/-!
Verification development for the raw-tool enrichment pipeline
(`src/server.js`, Mongoose schema `models/Tool.js`).

The JavaScript source is shallowly embedded below:

* JSON values become the inductive type `Json`; JavaScript truthiness,
  `Array.isArray` and property lookup become `Json.truthy`, `Json.isArr`,
  `Json.get?`.
* The JavaScript string builtins used by the code (`trim`, `startsWith`,
  `replace` on the three concrete regexes, `toLowerCase().replace(/\s+/g,'-')`,
  `substring(0, 200)`) are modelled on `List Char` (`jsTrim`, `cleanContentL`,
  `slugify`, `jsSubstr`).  Whitespace is modelled as the ASCII class
  space/tab/CR/LF, which is the common core of the JS `\s` class and of
  `String.prototype.trim`.
* `JSON.parse` (an external runtime primitive) is modelled by the executable
  recursive-descent parser `jsonParse` over the RFC 8259 grammar, with
  numbers represented exactly as rationals.
* The fallible external effects (the model invocation, `tool.save`, the two
  `updateOne` calls) become an explicit `Env` of per-attempt outcomes;
  thrown exceptions become `Except`.
-/

namespace AIScript

/-- A JSON value, the shape `JSON.parse` produces. -/
inductive Json where
  | null : Json
  | bool (b : Bool) : Json
  | num (q : Rat) : Json
  | str (s : String) : Json
  | arr (elems : List Json) : Json
  | obj (fields : List (String × Json)) : Json

/-- Property access `j[k]`: `none` models JavaScript `undefined`. -/
def Json.get? : Json → String → Option Json
  | .obj fs, k => (fs.find? (fun kv => kv.1 = k)).map (fun kv => kv.2)
  | _, _ => none

/-- JavaScript truthiness of a JSON value (no NaN exists in JSON). -/
def Json.truthy : Json → Bool
  | .null => false
  | .bool b => b
  | .num q => q != 0
  | .str s => s != ""
  | .arr _ => true
  | .obj _ => true

/-- Truthiness of a possibly-missing value (`undefined` is falsy). -/
def jsTruthy : Option Json → Bool
  | none => false
  | some j => j.truthy

/-- Model of `Array.isArray`. -/
def Json.isArr : Json → Bool
  | .arr _ => true
  | _ => false

/-- `Array.isArray(j[k])` for a possibly-missing value. -/
def isArrOpt : Option Json → Bool
  | none => false
  | some j => j.isArr

/-- ASCII whitespace, the common core of the JS `\s` class and of `trim`. -/
def isJsWs (c : Char) : Bool :=
  c = ' ' || c = '\t' || c = '\n' || c = '\r'

/-- Leading-whitespace removal (one side of `String.prototype.trim`). -/
def trimL (cs : List Char) : List Char := cs.dropWhile isJsWs

/-- Trailing-whitespace removal (the other side of `trim`). -/
def trimR : List Char → List Char
  | [] => []
  | c :: rest =>
    match trimR rest with
    | [] => if isJsWs c then [] else [c]
    | r => c :: r

/-- Model of `String.prototype.trim` on character lists. -/
def jsTrim (cs : List Char) : List Char := trimR (trimL cs)

/-- JavaScript `a || d` for a possibly-undefined string `a`:
the empty string is falsy. -/
def jsOr : Option String → String → String
  | none, d => d
  | some s, d => if s = "" then d else s

/-- Model of `s.substring(0, n)` (code points instead of UTF-16 units). -/
def jsSubstr (s : String) (n : Nat) : String := ⟨s.data.take n⟩

/-- Character-list worker for `slugify`: the global replace `\s+` to a
single hyphen.  `prevWs` records whether the previous character belonged
to a whitespace run already replaced. -/
def collapseWsAux : Bool → List Char → List Char
  | _, [] => []
  | prevWs, c :: rest =>
    if isJsWs c then
      if prevWs then collapseWsAux true rest
      else '-' :: collapseWsAux true rest
    else c :: collapseWsAux false rest

/-- Model of `name.toLowerCase().replace(/\s+/g, '-')` (server.js line 139):
lowercase character by character, then collapse whitespace runs to hyphens. -/
def slugify (s : String) : String :=
  ⟨collapseWsAux false (s.data.map Char.toLower)⟩

/-- Does the whole remaining text consist of a fence `\x60\x60\x60`
followed only by whitespace?  This is exactly where the anchored regex
(backtick fence, then `\s*$`) can match. -/
def fenceToEnd : List Char → Bool
  | a :: b :: c :: tail => a = '`' && b = '`' && c = '`' && tail.all isJsWs
  | _ => false

/-- Model of `.replace(/\x60\x60\x60\s*$/, '')`: remove from the leftmost
position at which the fence-to-end pattern matches. -/
def stripTrailingFenceAux : List Char → List Char
  | [] => []
  | c :: rest =>
    if fenceToEnd (c :: rest) then [] else c :: stripTrailingFenceAux rest

/-- Do the first three characters form a backtick fence? -/
def startsTriple : List Char → Bool
  | a :: b :: c :: _ => a = '`' && b = '`' && c = '`'
  | _ => false

/-- No three consecutive backticks anywhere in the list (the side condition
under which fence stripping cannot fire inside the enclosed payload). -/
def noTriple : List Char → Bool
  | [] => true
  | c :: rest => !startsTriple (c :: rest) && noTriple rest

/-- The response cleanup of `getAIAnalysis` (server.js lines 112-119) on
character lists: trim, then strip a leading fenced-block marker (with the
`json` tag, 7 characters, or bare, 3 characters) together with the
whitespace after it, strip the trailing fence, and trim again. -/
def cleanContentL (raw : List Char) : List Char :=
  let content := jsTrim raw
  if ("```json".data).isPrefixOf content then
    jsTrim (stripTrailingFenceAux (trimL (content.drop 7)))
  else if ("```".data).isPrefixOf content then
    jsTrim (stripTrailingFenceAux (trimL (content.drop 3)))
  else content

/-- The response cleanup on strings. -/
def cleanContent (raw : String) : String := ⟨cleanContentL raw.data⟩

/-! Executable model of the runtime primitive `JSON.parse` (RFC 8259):
recursive descent over the character list, structured by a fuel argument
that is amply provisioned by the caller.  A `none` result models the
`SyntaxError` the runtime throws. -/

/-- JSON insignificant whitespace. -/
def skipWs (cs : List Char) : List Char := cs.dropWhile isJsWs

/-- Value of a decimal digit list. -/
def digitsVal (ds : List Char) : Nat :=
  ds.foldl (fun a c => 10 * a + (c.toNat - 48)) 0

/-- Value of a hexadecimal digit, if any. -/
def hexVal (c : Char) : Option Nat :=
  if c.isDigit then some (c.toNat - 48)
  else if 'a' ≤ c && c ≤ 'f' then some (c.toNat - 87)
  else if 'A' ≤ c && c ≤ 'F' then some (c.toNat - 55)
  else none

/-- Scan a JSON string body after the opening quote; `acc` holds the
characters read so far in reverse.  Handles the escapes of the grammar;
a `\u` escape produces the code point of its 16-bit value (surrogate
pairing is not modelled). -/
def parseStrAux (acc : List Char) : List Char → Option (String × List Char)
  | '"' :: rest => some (⟨acc.reverse⟩, rest)
  | '\\' :: rest =>
    match rest with
    | [] => none
    | e :: rest1 =>
      if e = '"' then parseStrAux ('"' :: acc) rest1
      else if e = '\\' then parseStrAux ('\\' :: acc) rest1
      else if e = '/' then parseStrAux ('/' :: acc) rest1
      else if e = 'b' then parseStrAux (Char.ofNat 8 :: acc) rest1
      else if e = 'f' then parseStrAux (Char.ofNat 12 :: acc) rest1
      else if e = 'n' then parseStrAux ('\n' :: acc) rest1
      else if e = 'r' then parseStrAux ('\r' :: acc) rest1
      else if e = 't' then parseStrAux ('\t' :: acc) rest1
      else if e = 'u' then
        match rest1 with
        | a :: b :: c :: d :: rest2 =>
          match hexVal a, hexVal b, hexVal c, hexVal d with
          | some ha, some hb, some hc, some hd =>
            parseStrAux (Char.ofNat (((ha * 16 + hb) * 16 + hc) * 16 + hd) :: acc) rest2
          | _, _, _, _ => none
        | _ => none
      else none
  | c :: rest =>
    if c.toNat < 32 then none else parseStrAux (c :: acc) rest
  | [] => none

/-- Parse a JSON number starting at `cs` (sign, integer part, optional
fraction and exponent), as an exact rational. -/
def parseNumber (cs : List Char) : Option (Json × List Char) :=
  let signed := match cs with
    | '-' :: r => (true, r)
    | _ => (false, cs)
  let neg := signed.1
  let cs1 := signed.2
  let intPart : Option (List Char × List Char) := match cs1 with
    | '0' :: r => some (['0'], r)
    | c :: _ => if c.isDigit then some (cs1.span Char.isDigit) else none
    | [] => none
  match intPart with
  | none => none
  | some (intDs, cs2) =>
    let fracPart : Option (List Char × List Char) := match cs2 with
      | '.' :: r =>
        let p := r.span Char.isDigit
        if p.1 = [] then none else some p
      | _ => some ([], cs2)
    match fracPart with
    | none => none
    | some (fracDs, cs3) =>
      let expPart : Option (Int × List Char) := match cs3 with
        | e :: r =>
          if e = 'e' || e = 'E' then
            let esigned := match r with
              | '-' :: r2 => (true, r2)
              | '+' :: r2 => (false, r2)
              | _ => (false, r)
            let p := esigned.2.span Char.isDigit
            if p.1 = [] then none
            else some ((if esigned.1 then -(digitsVal p.1 : Int) else (digitsVal p.1 : Int)), p.2)
          else some (0, cs3)
        | [] => some (0, [])
      match expPart with
      | none => none
      | some (e, cs4) =>
        let m : Nat := digitsVal (intDs ++ fracDs)
        let q : Rat := (if neg then -(m : Rat) else (m : Rat)) *
          (10 : Rat) ^ (e - (fracDs.length : Int))
        some (.num q, cs4)

/-- Record a member into an object under construction: a duplicate key
overwrites its earlier value (the `JSON.parse` last-wins rule) while the
first occurrence keeps its position. -/
def insertField (fs : List (String × Json)) (k : String) (v : Json) :
    List (String × Json) :=
  if fs.any (fun kv => kv.1 = k) then
    fs.map (fun kv => if kv.1 = k then (k, v) else kv)
  else fs ++ [(k, v)]

/-- The parser's mode: at a value, inside an object's member list, or
inside an array's element list (with the members or elements read so far). -/
inductive PMode where
  | val : PMode
  | objBody (acc : List (String × Json)) : PMode
  | arrBody (acc : List Json) : PMode

/-- One recursive-descent parser covering the three modes, structurally
recursive on the fuel so that it reduces in the kernel.  In `val` mode it
parses one JSON value (leading whitespace allowed); in the body modes it
is positioned at the next member or element. -/
def parseStep : Nat → PMode → List Char → Option (Json × List Char)
  | 0, _, _ => none
  | fuel + 1, .val, cs =>
    match skipWs cs with
    | [] => none
    | '{' :: rest =>
      match skipWs rest with
      | '}' :: r2 => some (.obj [], r2)
      | cs2 => parseStep fuel (.objBody []) cs2
    | '[' :: rest =>
      match skipWs rest with
      | ']' :: r2 => some (.arr [], r2)
      | cs2 => parseStep fuel (.arrBody []) cs2
    | '"' :: rest => (parseStrAux [] rest).map (fun p => (.str p.1, p.2))
    | 't' :: 'r' :: 'u' :: 'e' :: rest => some (.bool true, rest)
    | 'f' :: 'a' :: 'l' :: 's' :: 'e' :: rest => some (.bool false, rest)
    | 'n' :: 'u' :: 'l' :: 'l' :: rest => some (.null, rest)
    | c :: rest =>
      if c = '-' || c.isDigit then parseNumber (c :: rest) else none
  | fuel + 1, .objBody acc, cs =>
    match cs with
    | '"' :: rest =>
      match parseStrAux [] rest with
      | none => none
      | some (k, r1) =>
        match skipWs r1 with
        | ':' :: r2 =>
          match parseStep fuel .val r2 with
          | none => none
          | some (v, r3) =>
            match skipWs r3 with
            | ',' :: r4 => parseStep fuel (.objBody (insertField acc k v)) (skipWs r4)
            | '}' :: r4 => some (.obj (insertField acc k v), r4)
            | _ => none
        | _ => none
    | _ => none
  | fuel + 1, .arrBody acc, cs =>
    match parseStep fuel .val cs with
    | none => none
    | some (v, r) =>
      match skipWs r with
      | ',' :: r2 => parseStep fuel (.arrBody (acc ++ [v])) (skipWs r2)
      | ']' :: r2 => some (.arr (acc ++ [v]), r2)
      | _ => none

/-- Model of `JSON.parse` on a character list: one value, then only
whitespace may remain. -/
def jsonParseL (cs : List Char) : Option Json :=
  match parseStep (2 * cs.length + 2) .val cs with
  | some (j, rest) => if skipWs rest = [] then some j else none
  | none => none

/-- Model of `JSON.parse` on strings. -/
def jsonParse (s : String) : Option Json := jsonParseL s.data

/-! The analysis normalization of `getAIAnalysis` (server.js lines 46-159). -/

/-- The structural acceptance check of server.js lines 126-128: the decoded
value is kept only when `parsed.name` and `parsed.description` and
`parsed.prosCons` are truthy and `parsed.features`, `parsed.useCases` are
arrays.  (When `parsed` is `null` the property access throws; the same
catch block runs, so the model folds that case into falsity.) -/
def validStructure (j : Json) : Bool :=
  jsTruthy (j.get? "name") && jsTruthy (j.get? "description") &&
  isArrOpt (j.get? "features") && jsTruthy (j.get? "prosCons") &&
  isArrOpt (j.get? "useCases")

/-- The fallback payload of server.js lines 137-153, synthesized when the
reply cannot be parsed or fails the structural check.  `content` is the
cleaned reply text. -/
def fallbackPayload (sName sUrl content : String) : Json :=
  .obj [
    ("name", .str sName),
    ("slug", .str (slugify sName)),
    ("website", .str sUrl),
    ("tagline", .str ("AI tool analysis for " ++ sName)),
    ("description", .str ("AI tool analysis for " ++ sName ++ ". " ++
      jsSubstr content 200 ++ "...")),
    ("company", .str "Unknown"),
    ("longDescription", .str "Analysis pending - JSON parse error"),
    ("categories", .arr [.str "AI Tools"]),
    ("features", .arr []),
    ("integrations", .arr []),
    ("prosCons", .obj [("pros", .arr []), ("cons", .arr [])]),
    ("useCases", .arr [])
  ]

/-- Does the cleaned reply text decode to an accepted payload?  False on a
parse error and on a structurally invalid decode alike. -/
def decodeAccepted (content : String) : Bool :=
  match jsonParse content with
  | some j => validStructure j
  | none => false

/-- The pure normalization step of `getAIAnalysis` for a reply that did
arrive: guard the inputs, clean the raw text, decode, and either keep the
accepted payload or synthesize the fallback. -/
def getAIAnalysisPayload (toolName appUrl : Option String) (raw : String) : Json :=
  let sName := jsOr toolName "Unknown Tool"
  let sUrl := jsOr appUrl "No URL provided"
  let content := cleanContent raw
  match jsonParse content with
  | some parsed =>
    if validStructure parsed then parsed else fallbackPayload sName sUrl content
  | none => fallbackPayload sName sUrl content

/-- `getAIAnalysis` including the invocation boundary: a hard invocation
error (network/auth/quota) rethrows to the caller; a reply text is
normalized. -/
def getAIAnalysis (toolName appUrl : Option String)
    (invocation : Except String String) : Except String Json :=
  match invocation with
  | .error m => .error m
  | .ok raw => .ok (getAIAnalysisPayload toolName appUrl raw)

/-! The Mongoose `Tool` schema (models/Tool.js): the validation `tool.save`
runs before inserting.  A scalar casts to the `String` type; `required`
then rejects a missing value, `null`, and the empty string. -/

/-- A JSON value Mongoose can cast to a `String` path. -/
def castableStr : Json → Bool
  | .str _ => true
  | .num _ => true
  | .bool _ => true
  | _ => false

/-- A `required: true` string path accepts a castable scalar whose string
form is non-empty; it rejects a missing value, `null`, the empty string,
and a value that fails the cast (array or object). -/
def reqStr : Option Json → Bool
  | some (.str s) => s != ""
  | some j => castableStr j
  | none => false

/-- An optional string element of an array path: castable scalar or null. -/
def strElemOk (j : Json) : Bool :=
  castableStr j || (match j with | .null => true | _ => false)

/-- An element of the `features` array: a subdocument with required
`name` and `description` strings (featureSchema). -/
def featureOk : Json → Bool
  | .obj fs => reqStr ((Json.obj fs).get? "name") &&
      reqStr ((Json.obj fs).get? "description")
  | _ => false

/-- An array path: missing defaults to `[]`; a non-array scalar is wrapped
into a singleton by the cast; each element must satisfy `p`. -/
def arrOf (p : Json → Bool) : Option Json → Bool
  | none => true
  | some (.arr xs) => xs.all p
  | some j => p j

/-- The `prosCons` subdocument: optional, but if present must be an object
whose `pros` and `cons` are string arrays. -/
def prosConsOk : Option Json → Bool
  | none => true
  | some (.obj fs) => arrOf strElemOk ((Json.obj fs).get? "pros") &&
      arrOf strElemOk ((Json.obj fs).get? "cons")
  | some _ => false

/-- Schema validation of the spread analysis payload (the fields the merge
in `processRawDataItem` adds on top -- `logo_url`, `status`, `processed_at`,
`original_id` -- are not required, so validity is decided by the payload). -/
def validateTool (payload : Json) : Bool :=
  reqStr (payload.get? "name") && reqStr (payload.get? "slug") &&
  reqStr (payload.get? "website") && reqStr (payload.get? "tagline") &&
  reqStr (payload.get? "description") && reqStr (payload.get? "company") &&
  reqStr (payload.get? "longDescription") &&
  arrOf strElemOk (payload.get? "categories") &&
  arrOf featureOk (payload.get? "features") &&
  arrOf strElemOk (payload.get? "integrations") &&
  prosConsOk (payload.get? "prosCons") &&
  arrOf strElemOk (payload.get? "useCases")

/-- The message of the Mongoose validation error `tool.save` throws. -/
def validationErrMsg : String := "Tool validation failed"

/-! The per-record processing attempt `processRawDataItem`
(server.js lines 162-237) and the batch/route layer around it.  Store I/O
and the invocation are the fallible external effects; an `Env` fixes the
outcome of each for one attempt, and `Except` carries a thrown exception. -/

/-- One document of the `Raw-test-data` collection.  The legacy name/URL/logo
fields may each be absent; timestamps are abstracted to set/unset flags. -/
structure RawItem where
  oid : Nat
  appName : Option String := none
  ai_tool_name : Option String := none
  name : Option String := none
  tool_name : Option String := none
  appUrl : Option String := none
  app_url : Option String := none
  url : Option String := none
  website : Option String := none
  appLogoUrl : Option String := none
  logo_url : Option String := none
  logo : Option String := none
  image_url : Option String := none
  status : Int := 0
  error_message : Option String := none
  error_at : Bool := false
  processed_at : Bool := false
deriving Repr, DecidableEq

/-- One document written to `Processed-test-data` by `tool.save`: the spread
analysis payload plus the fields the merge adds (`status: 10` and the
timestamp are constants and are left implicit). -/
structure ToolDoc where
  payload : Json
  logoUrl : String
  originalId : Nat

/-- The value `processRawDataItem` returns to the batch loop. -/
structure AttemptResult where
  success : Bool
  error : Option String
  originalId : Nat
deriving Repr, DecidableEq

/-- Outcomes of the external effects for one processing attempt:
`analysis` is the invocation (hard error or raw reply text); `saveDb` a
database error thrown by `tool.save` on an otherwise valid document;
`update1` an error thrown by the success-path `updateOne`; `update2` an
error thrown by the failure-path `updateOne` inside the catch block. -/
structure Env where
  analysis : Except String String
  saveDb : Option String := none
  update1 : Option String := none
  update2 : Option String := none
deriving Repr

/-- Name resolution of server.js line 168:
`item.appName || item.ai_tool_name || item.name || item.tool_name || 'Unknown Tool'`. -/
def resolveToolName (item : RawItem) : String :=
  jsOr item.appName (jsOr item.ai_tool_name (jsOr item.name
    (jsOr item.tool_name "Unknown Tool")))

/-- URL resolution of server.js line 169 (defaults to the empty string). -/
def resolveAppUrl (item : RawItem) : String :=
  jsOr item.appUrl (jsOr item.app_url (jsOr item.url (jsOr item.website "")))

/-- Logo resolution of server.js line 170. -/
def resolveLogoUrl (item : RawItem) : String :=
  jsOr item.appLogoUrl (jsOr item.logo_url (jsOr item.logo
    (jsOr item.image_url "")))

/-- The `$set` of the success-path `updateOne` (server.js lines 195-203). -/
def markProcessed (r : RawItem) : RawItem :=
  { r with status := 1, processed_at := true }

/-- The `$set` of the failure-path `updateOne` (server.js lines 220-229). -/
def markFailed (msg : String) (r : RawItem) : RawItem :=
  { r with status := -1, error_message := some msg, error_at := true }

/-- `updateOne({_id: id}, ...)` over the collection (ids are unique in the
store, so the map touches at most one document). -/
def updateRaw (store : List RawItem) (id : Nat) (f : RawItem → RawItem) :
    List RawItem :=
  store.map (fun r => if r.oid = id then f r else r)

/-- The state `processRawDataItem` leaves behind: the value it returns or
the exception it lets escape, plus the two collections. -/
structure ProcOut where
  result : Except String AttemptResult
  store : List RawItem
  tools : List ToolDoc

/-- The catch block of `processRawDataItem`: write the record to Failed
with the error message; if that write itself throws, the exception
escapes to the caller and no status is written. -/
def catchPath (env : Env) (item : RawItem) (msg : String)
    (store : List RawItem) (tools : List ToolDoc) : ProcOut :=
  match env.update2 with
  | some m2 => ⟨.error m2, store, tools⟩
  | none => ⟨.ok ⟨false, some msg, item.oid⟩,
      updateRaw store item.oid (markFailed msg), tools⟩

/-- `processRawDataItem` (server.js lines 162-237): resolve the legacy
fields, invoke the analysis, save the Tool document, mark the record
Processed; any thrown error lands in the catch block. -/
def processRawDataItem (env : Env) (item : RawItem)
    (store : List RawItem) (tools : List ToolDoc) : ProcOut :=
  let toolName := resolveToolName item
  let appUrl := resolveAppUrl item
  let logoUrl := resolveLogoUrl item
  match getAIAnalysis (some toolName) (some appUrl) env.analysis with
  | .error m => catchPath env item m store tools
  | .ok payload =>
    if validateTool payload then
      match env.saveDb with
      | some m => catchPath env item m store tools
      | none =>
        let tools2 := tools ++ [⟨payload, logoUrl, item.oid⟩]
        match env.update1 with
        | some m => catchPath env item m store tools2
        | none => ⟨.ok ⟨true, none, item.oid⟩,
            updateRaw store item.oid markProcessed, tools2⟩
    else catchPath env item validationErrMsg store tools

/-- The sequential loop shared by the `/process-raw-data` route
(server.js lines 256-266) and `autoProcessPendingData` (lines 441-454):
one attempt per selected item, in order; an exception that escapes an
attempt aborts the loop (the route's outer catch turns it into a 500). -/
def runBatch (envOf : Nat → Env) :
    List RawItem → List RawItem → List ToolDoc →
    Except String (List AttemptResult) × List RawItem × List ToolDoc
  | [], store, tools => (.ok [], store, tools)
  | item :: rest, store, tools =>
    let out := processRawDataItem (envOf item.oid) item store tools
    match out.result with
    | .error m => (.error m, out.store, out.tools)
    | .ok r =>
      match runBatch envOf rest out.store out.tools with
      | (.error m, s, t) => (.error m, s, t)
      | (.ok rs, s, t) => (.ok (r :: rs), s, t)

/-- Batch selection plus the loop: `find({status: 0})` snapshots the
pending set, then every selected record is attempted in order. -/
def processRawDataBatch (envOf : Nat → Env) (store : List RawItem)
    (tools : List ToolDoc) :
    Except String (List AttemptResult) × List RawItem × List ToolDoc :=
  runBatch envOf (store.filter (fun r => r.status = 0)) store tools

/-- The summary counts the `/process-raw-data` route reports:
`processed` successes and `failed` failures. -/
def batchSummary (rs : List AttemptResult) : Nat × Nat :=
  ((rs.filter (fun r => r.success)).length,
   (rs.filter (fun r => !r.success)).length)

/-- What the `/process-item/:id` route replies with. -/
inductive ItemResponse where
  | alreadyProcessedOrMissing : ItemResponse
  | ok (r : AttemptResult) : ItemResponse
  | failed (err : String) : ItemResponse
  | serverError (m : String) : ItemResponse
deriving Repr, DecidableEq

/-- The `/process-item/:id` route (server.js lines 289-328):
`findOne({_id, status: 0})`; a miss returns the 404
`Item not found or already processed` without touching either store;
a hit runs one attempt on the fetched record. -/
def processItemRoute (envOf : Nat → Env) (id : Nat)
    (store : List RawItem) (tools : List ToolDoc) :
    ItemResponse × List RawItem × List ToolDoc :=
  match store.find? (fun r => r.oid = id && r.status = 0) with
  | none => (.alreadyProcessedOrMissing, store, tools)
  | some item =>
    let out := processRawDataItem (envOf id) item store tools
    match out.result with
    | .error m => (.serverError m, out.store, out.tools)
    | .ok r =>
      if r.success then (.ok r, out.store, out.tools)
      else (.failed ((r.error).getD ""), out.store, out.tools)

/-! Derived per-attempt outcome functions.  An attempt's result value is a
pure function of its `Env` and the fetched item (the threaded stores only
receive the writes); the lemmas below prove `processRawDataItem` equal to
these, and the batch theorems are stated through them. -/

/-- The analysis payload an attempt on `item` normalizes from reply `raw`. -/
def analysisPayload (item : RawItem) (raw : String) : Json :=
  getAIAnalysisPayload (some (resolveToolName item)) (some (resolveAppUrl item)) raw

/-- Does the attempt reach the success return (analysis ok, document valid,
save and status write both succeed)? -/
def attemptSucceeds (env : Env) (item : RawItem) : Bool :=
  match env.analysis with
  | .error _ => false
  | .ok raw => validateTool (analysisPayload item raw) &&
      env.saveDb.isNone && env.update1.isNone

/-- The message of the error a failing attempt catches. -/
def attemptMsg (env : Env) (item : RawItem) : String :=
  match env.analysis with
  | .error m => m
  | .ok raw =>
    if validateTool (analysisPayload item raw) then
      match env.saveDb with
      | some m => m
      | none => (env.update1).getD ""
    else validationErrMsg

/-- The Tool document the attempt persists, when the save completes
(also in the run where the later status write fails). -/
def attemptDoc (env : Env) (item : RawItem) : Option ToolDoc :=
  match env.analysis with
  | .error _ => none
  | .ok raw =>
    if validateTool (analysisPayload item raw) && env.saveDb.isNone then
      some ⟨analysisPayload item raw, resolveLogoUrl item, item.oid⟩
    else none

/-- The status write the attempt performs on its record (assuming the
catch-path write goes through). -/
def outcomeUpdate (env : Env) (item : RawItem) : RawItem → RawItem :=
  if attemptSucceeds env item then markProcessed
  else markFailed (attemptMsg env item)

/-- The result value the attempt returns (assuming the catch-path write
goes through). -/
def resultOf (env : Env) (item : RawItem) : AttemptResult :=
  if attemptSucceeds env item then ⟨true, none, item.oid⟩
  else ⟨false, some (attemptMsg env item), item.oid⟩

/-- The end state of one record after a full batch run: a Pending record
receives its attempt's terminal status, any other record is untouched. -/
def finalize (envOf : Nat → Env) (r : RawItem) : RawItem :=
  if r.status = 0 then outcomeUpdate (envOf r.oid) r r else r

/-- The sequence of record-store writes a batch performs, one
`updateOne` per selected item, in order. -/
def applyAll (envOf : Nat → Env) : List RawItem → List RawItem → List RawItem
  | [], store => store
  | it :: rest, store =>
    applyAll envOf rest (updateRaw store it.oid (outcomeUpdate (envOf it.oid) it))

/-- The effect of a batch on one record: the write of the selected item
carrying the record's id, if any. -/
def applyFound (envOf : Nat → Env) (items : List RawItem) (r : RawItem) : RawItem :=
  match items.find? (fun it => it.oid = r.oid) with
  | some it => outcomeUpdate (envOf it.oid) it r
  | none => r

/-- Specification-side resolution order (section 4.2 of the spec): the
first field of the list that is present and non-empty. -/
def firstNonEmpty : List (Option String) → Option String
  | [] => none
  | o :: rest =>
    match o with
    | some s => if s = "" then firstNonEmpty rest else some s
    | none => firstNonEmpty rest

/-! Concrete inputs used by the witness and counterexample theorems. -/

/-- A structurally accepted payload that omits `slug` (and the other
required schema fields beyond name/description). -/
def jNoSlug : Json :=
  .obj [("name", .str "T"), ("description", .str "d"), ("features", .arr []),
    ("prosCons", .obj [("pros", .arr []), ("cons", .arr [])]),
    ("useCases", .arr [])]

/-- The reply text that decodes to `jNoSlug`. -/
def rawNoSlug : String :=
  "\x7b\"name\":\"T\",\"description\":\"d\",\"features\":[],\"prosCons\":\x7b\"pros\":[],\"cons\":[]\x7d,\"useCases\":[]\x7d"

/-- A fully valid decoded payload (every schema-required field present). -/
def jFull : Json :=
  .obj [("name", .str "T"), ("slug", .str "t"), ("website", .str "https://t.example"),
    ("tagline", .str "tag"), ("description", .str "d"), ("company", .str "c"),
    ("longDescription", .str "long"), ("categories", .arr [.str "AI Tools"]),
    ("features", .arr []), ("integrations", .arr []),
    ("prosCons", .obj [("pros", .arr []), ("cons", .arr [])]),
    ("useCases", .arr [])]

/-- The reply text that decodes to `jFull`. -/
def rawFull : String :=
  "\x7b\"name\":\"T\",\"slug\":\"t\",\"website\":\"https://t.example\",\"tagline\":\"tag\",\"description\":\"d\",\"company\":\"c\",\"longDescription\":\"long\",\"categories\":[\"AI Tools\"],\"features\":[],\"integrations\":[],\"prosCons\":\x7b\"pros\":[],\"cons\":[]\x7d,\"useCases\":[]\x7d"

/-- A reply wrapped in a fence with the language tag `js`. -/
def fencedJsEx : String := "```js\n" ++ rawNoSlug ++ "\n```"

/-- A Pending raw record with one legacy name field set. -/
def itemEx : RawItem := { oid := 1, ai_tool_name := some "T", app_url := some "u" }

/-- A second Pending raw record. -/
def itemEx2 : RawItem := { oid := 2, name := some "S" }

/-- An already-Processed raw record. -/
def itemDone : RawItem := { oid := 7, name := some "D", status := 1 }

/-- An effect environment whose invocation fails hard. -/
def envHardErr : Env := { analysis := .error "ECONNRESET" }

/-- An effect environment whose invocation replies unparseable prose. -/
def envProse : Env := { analysis := .ok "Sure! Here is the analysis." }

/-- An effect environment where the save succeeds and the success-path
status update throws. -/
def envUpdate1Fails : Env :=
  { analysis := .ok "plain prose reply", update1 := some "status write failed" }

/-- A second environment of the same shape, for the companion scenario. -/
def envUpdate1FailsB : Env :=
  { analysis := .ok "another prose reply", update1 := some "write timeout" }

/-- An environment whose reply decodes to the schema-incomplete payload. -/
def envNoSlug : Env := { analysis := .ok rawNoSlug }

/-- A per-record environment for a two-record batch: record 1's invocation
replies prose (fallback, then success), any other record fails hard. -/
def envOfEx : Nat → Env := fun id => if id = 1 then envProse else envHardErr

/-! Helper lemmas. -/

/-- A JS-or with a non-empty default never yields the empty string. -/
theorem jsOr_ne_empty (o : Option String) (d : String) (hd : d ≠ "") :
    jsOr o d ≠ "" := by
  cases o with
  | none => simpa [jsOr] using hd
  | some s =>
    by_cases hs : s = "" <;> simp [jsOr, hs, hd]

/-- Appending to a non-empty string stays non-empty. -/
theorem append_ne_empty_left (a b : String) (h : a ≠ "") : a ++ b ≠ "" := by
  intro hc
  apply h
  have hdata : a.data ++ b.data = [] := by
    have := congrArg String.data hc
    simpa [String.data_append] using this
  have : a.data = [] := (List.append_eq_nil.mp hdata).1
  cases a
  exact congrArg String.mk this

/-- One resolution step agrees with one step of `firstNonEmpty`. -/
theorem jsOr_firstNonEmpty (o : Option String) (rest : List (Option String))
    (d : String) :
    jsOr o ((firstNonEmpty rest).getD d) = (firstNonEmpty (o :: rest)).getD d := by
  cases o with
  | none => simp [jsOr, firstNonEmpty]
  | some s =>
    by_cases hs : s = "" <;> simp [jsOr, firstNonEmpty, hs]

/-- The field `firstNonEmpty` selects is itself non-empty. -/
theorem firstNonEmpty_ne_empty (l : List (Option String)) (s : String)
    (h : firstNonEmpty l = some s) : s ≠ "" := by
  induction l with
  | nil => simp [firstNonEmpty] at h
  | cons o rest ih =>
    cases o with
    | none => exact ih (by simpa [firstNonEmpty] using h)
    | some t =>
      by_cases ht : t = ""
      · exact ih (by simpa [firstNonEmpty, ht] using h)
      · simp [firstNonEmpty, ht] at h
        subst h
        exact ht

/-- The structural check accepts every fallback payload built from a
non-empty resolved name. -/
theorem validStructure_fallback (sName sUrl content : String)
    (h : sName ≠ "") :
    validStructure (fallbackPayload sName sUrl content) = true := by
  have hdesc : ("AI tool analysis for " ++ sName ++ ". " ++
      jsSubstr content 200 ++ "...") ≠ "" := by
    apply append_ne_empty_left
    apply append_ne_empty_left
    apply append_ne_empty_left
    apply append_ne_empty_left
    decide
  simp [validStructure, fallbackPayload, Json.get?, jsTruthy, Json.truthy,
    isArrOpt, Json.isArr, List.find?, h, hdesc]

/-- C8.  Name and URL resolution precedence: the resolved display name of
`processRawDataItem` (server.js line 168) equals the first present,
non-empty field among `appName`, `ai_tool_name`, `name`, `tool_name`, and
the sentinel `Unknown Tool` when none qualifies; the URL the analysis sees
(the line 169 chain followed by the guard of server.js line 50) equals the
first present, non-empty field among `appUrl`, `app_url`, `url`, `website`,
and the sentinel `No URL provided` -- not the empty string -- when none
qualifies. -/
theorem resolution_precedence (item : RawItem) :
    resolveToolName item =
      (firstNonEmpty [item.appName, item.ai_tool_name, item.name,
        item.tool_name]).getD "Unknown Tool" ∧
    jsOr (some (resolveAppUrl item)) "No URL provided" =
      (firstNonEmpty [item.appUrl, item.app_url, item.url,
        item.website]).getD "No URL provided" := by
  constructor
  · show jsOr item.appName (jsOr item.ai_tool_name (jsOr item.name
      (jsOr item.tool_name "Unknown Tool"))) = _
    rw [show "Unknown Tool" = (firstNonEmpty []).getD "Unknown Tool" from rfl,
      jsOr_firstNonEmpty, jsOr_firstNonEmpty, jsOr_firstNonEmpty,
      jsOr_firstNonEmpty]
    rfl
  · have hchain : resolveAppUrl item =
        (firstNonEmpty [item.appUrl, item.app_url, item.url,
          item.website]).getD "" := by
      show jsOr item.appUrl (jsOr item.app_url (jsOr item.url
        (jsOr item.website ""))) = _
      rw [show ("" : String) = (firstNonEmpty []).getD "" from rfl,
        jsOr_firstNonEmpty, jsOr_firstNonEmpty, jsOr_firstNonEmpty,
        jsOr_firstNonEmpty]
      rfl
    rw [hchain]
    cases hf : firstNonEmpty [item.appUrl, item.app_url, item.url,
        item.website] with
    | none => simp [jsOr]
    | some s =>
      have hs := firstNonEmpty_ne_empty _ _ hf
      simp [jsOr, hs]

/-- C2.  The decoded reply is accepted (returned as-is, no fallback) if and
only if its `name`, `description` and `prosCons` are truthy and its
`features` and `useCases` are arrays; a parse error and a failed structural
check both yield the same synthesized fallback payload. -/
theorem decode_acceptance_iff (tn au : Option String) (raw : String) :
    (∀ j, jsonParse (cleanContent raw) = some j →
      (getAIAnalysisPayload tn au raw = j ↔
        (jsTruthy (j.get? "name") = true ∧ jsTruthy (j.get? "description") = true ∧
         isArrOpt (j.get? "features") = true ∧ jsTruthy (j.get? "prosCons") = true ∧
         isArrOpt (j.get? "useCases") = true))) ∧
    (∀ j, jsonParse (cleanContent raw) = some j → validStructure j = false →
      getAIAnalysisPayload tn au raw =
        fallbackPayload (jsOr tn "Unknown Tool") (jsOr au "No URL provided")
          (cleanContent raw)) ∧
    (jsonParse (cleanContent raw) = none →
      getAIAnalysisPayload tn au raw =
        fallbackPayload (jsOr tn "Unknown Tool") (jsOr au "No URL provided")
          (cleanContent raw)) := by
  have hname : jsOr tn "Unknown Tool" ≠ "" := jsOr_ne_empty _ _ (by decide)
  have hfb := validStructure_fallback (jsOr tn "Unknown Tool")
    (jsOr au "No URL provided") (cleanContent raw) hname
  refine ⟨?_, ?_, ?_⟩
  · intro j hj
    by_cases hv : validStructure j = true
    · constructor
      · intro _
        have hv3 := hv
        simp [validStructure, Bool.and_eq_true] at hv3
        tauto
      · intro _
        simp [getAIAnalysisPayload, hj, hv]
    · have hv2 : validStructure j = false := by
        simpa using hv
      constructor
      · intro heq
        rw [show getAIAnalysisPayload tn au raw =
            fallbackPayload (jsOr tn "Unknown Tool") (jsOr au "No URL provided")
              (cleanContent raw) by simp [getAIAnalysisPayload, hj, hv2]] at heq
        rw [← heq] at hv2
        rw [hfb] at hv2
        cases hv2
      · intro hconj
        exact absurd (by simp [validStructure, Bool.and_eq_true]; tauto) hv
  · intro j hj hv
    simp [getAIAnalysisPayload, hj, hv]
  · intro hn
    simp [getAIAnalysisPayload, hn]

set_option maxRecDepth 100000 in
/-- C2 witness: a concrete fully-populated reply is accepted verbatim. -/
theorem decode_acceptance_iff_witness :
    getAIAnalysisPayload (some "T") (some "u") rawFull = jFull :=
  ((decode_acceptance_iff (some "T") (some "u") rawFull).1 jFull (by rfl)).mpr
    (by refine ⟨?_, ?_, ?_, ?_, ?_⟩ <;> rfl)

set_option maxRecDepth 100000 in
/-- C1 counterexample: on an unparseable reply the fallback's `categories`
is the non-empty placeholder list, so not every list-valued field of the
synthesized payload is empty. -/
theorem fallback_lists_counterexample :
    decodeAccepted (cleanContent "Sure! Here is the analysis.") = false ∧
    (getAIAnalysisPayload (some "Tool") (some "u")
        "Sure! Here is the analysis.").get? "categories" =
      some (Json.arr [Json.str "AI Tools"]) ∧
    (getAIAnalysisPayload (some "Tool") (some "u")
        "Sure! Here is the analysis.").get? "categories" ≠
      some (Json.arr []) := by
  refine ⟨by rfl, by rfl, ?_⟩
  intro h
  rw [show (getAIAnalysisPayload (some "Tool") (some "u")
      "Sure! Here is the analysis.").get? "categories" =
    some (Json.arr [Json.str "AI Tools"]) from rfl] at h
  simp at h

/-- C1 as amended.  Whenever the cleaned reply is not accepted by the
decode -- including the empty string, non-JSON prose, and a parseable but
field-incomplete reply -- the result is exactly the synthesized fallback:
its name and website echo the resolved inputs, its slug is the resolved
name lowercased with whitespace runs replaced by hyphens, its description
embeds an excerpt of the cleaned raw text bounded at 200 characters, its
feature, integration, use-case and pros/cons lists are present and empty,
its categories is the fixed placeholder list, and it satisfies the
EnrichedRecord structural invariants. -/
theorem fallback_totality_amended (tn au : Option String) (raw : String)
    (h : decodeAccepted (cleanContent raw) = false) :
    ∃ fb, getAIAnalysisPayload tn au raw = fb ∧
      fb = fallbackPayload (jsOr tn "Unknown Tool") (jsOr au "No URL provided")
        (cleanContent raw) ∧
      fb.get? "name" = some (.str (jsOr tn "Unknown Tool")) ∧
      fb.get? "website" = some (.str (jsOr au "No URL provided")) ∧
      fb.get? "slug" = some (.str (slugify (jsOr tn "Unknown Tool"))) ∧
      fb.get? "description" = some (.str ("AI tool analysis for " ++
        jsOr tn "Unknown Tool" ++ ". " ++ jsSubstr (cleanContent raw) 200 ++ "...")) ∧
      (jsSubstr (cleanContent raw) 200).length ≤ 200 ∧
      fb.get? "features" = some (.arr []) ∧
      fb.get? "integrations" = some (.arr []) ∧
      fb.get? "useCases" = some (.arr []) ∧
      fb.get? "prosCons" = some (.obj [("pros", .arr []), ("cons", .arr [])]) ∧
      fb.get? "categories" = some (.arr [.str "AI Tools"]) ∧
      validStructure fb = true := by
  refine ⟨fallbackPayload (jsOr tn "Unknown Tool") (jsOr au "No URL provided")
    (cleanContent raw), ?_, rfl, ?_, ?_, ?_, ?_, ?_, ?_, ?_, ?_, ?_, ?_, ?_⟩
  · rcases hp : jsonParse (cleanContent raw) with _ | j
    · simp [getAIAnalysisPayload, hp]
    · have hv : validStructure j = false := by
        have := h
        rw [decodeAccepted, hp] at this
        exact this
      simp [getAIAnalysisPayload, hp, hv]
  · simp [fallbackPayload, Json.get?, List.find?]
  · simp [fallbackPayload, Json.get?, List.find?]
  · simp [fallbackPayload, Json.get?, List.find?]
  · simp [fallbackPayload, Json.get?, List.find?]
  · exact (cleanContent raw).data.length_take_le 200
  · simp [fallbackPayload, Json.get?, List.find?]
  · simp [fallbackPayload, Json.get?, List.find?]
  · simp [fallbackPayload, Json.get?, List.find?]
  · simp [fallbackPayload, Json.get?, List.find?]
  · simp [fallbackPayload, Json.get?, List.find?]
  · exact validStructure_fallback _ _ _ (jsOr_ne_empty _ _ (by decide))

set_option maxRecDepth 100000 in
/-- C1 witness: the empty reply takes the fallback. -/
theorem fallback_totality_amended_witness :
    getAIAnalysisPayload (some "Tool") none "" =
      fallbackPayload "Tool" "No URL provided" "" := by
  obtain ⟨fb, h1, h2, _⟩ := fallback_totality_amended (some "Tool") none "" (by rfl)
  exact h1.trans h2

/-- Characterization of one attempt when the catch-path status write goes
through: the loop receives `resultOf`, the record receives
`outcomeUpdate`, and the Tool collection receives `attemptDoc`. -/
theorem processItem_spec (env : Env) (item : RawItem) (store : List RawItem)
    (tools : List ToolDoc) (h2 : env.update2 = none) :
    processRawDataItem env item store tools =
      ⟨.ok (resultOf env item),
       updateRaw store item.oid (outcomeUpdate env item),
       tools ++ (attemptDoc env item).toList⟩ := by
  rcases ha : env.analysis with m | raw
  · simp [processRawDataItem, getAIAnalysis, ha, catchPath, h2, resultOf,
      outcomeUpdate, attemptSucceeds, attemptMsg, attemptDoc]
  · by_cases hv : validateTool (analysisPayload item raw) = true
    all_goals simp only [analysisPayload] at hv
    · rcases hs : env.saveDb with _ | m
      · rcases hu1 : env.update1 with _ | m
        · simp [processRawDataItem, getAIAnalysis, ha, analysisPayload, hv,
            hs, hu1, resultOf, outcomeUpdate, attemptSucceeds, attemptMsg,
            attemptDoc]
        · simp [processRawDataItem, getAIAnalysis, ha, analysisPayload, hv,
            hs, hu1, catchPath, h2, resultOf, outcomeUpdate, attemptSucceeds,
            attemptMsg, attemptDoc]
      · simp [processRawDataItem, getAIAnalysis, ha, analysisPayload, hv,
          hs, catchPath, h2, resultOf, outcomeUpdate, attemptSucceeds,
          attemptMsg, attemptDoc]
    · have hv2 : validateTool (getAIAnalysisPayload (some (resolveToolName item))
          (some (resolveAppUrl item)) raw) = false := by
        simpa using hv
      simp [processRawDataItem, getAIAnalysis, ha, analysisPayload, hv2,
        catchPath, h2, resultOf, outcomeUpdate, attemptSucceeds, attemptMsg,
        attemptDoc]

set_option maxRecDepth 100000 in
/-- C4 counterexample: in a run where the Tool write succeeds and the
success-path status update throws, the catch handler marks the record
Failed (status -1); it does not remain Pending (status 0). -/
theorem pending_after_update_failure_counterexample :
    ((processRawDataItem envUpdate1Fails itemEx [itemEx] []).tools).length = 1 ∧
    (processRawDataItem envUpdate1Fails itemEx [itemEx] []).store =
      [{ itemEx with
          status := -1, error_message := some "status write failed", error_at := true }] ∧
    ¬ (processRawDataItem envUpdate1Fails itemEx [itemEx] []).store = [itemEx] := by
  refine ⟨by decide, by decide, by decide⟩

/-- C4 as amended.  When the EnrichedRecord write succeeds but the
subsequent status update throws, the catch handler updates the RawRecord
to Failed (status -1) with the error recorded, while the saved
EnrichedRecord remains; the record does not stay Pending, so it is not
re-selected on the next run. -/
theorem update_failure_marks_failed_amended (env : Env) (item : RawItem)
    (store : List RawItem) (tools : List ToolDoc) (raw m : String)
    (ha : env.analysis = .ok raw)
    (hv : validateTool (analysisPayload item raw) = true)
    (hs : env.saveDb = none) (h1 : env.update1 = some m)
    (h2 : env.update2 = none) :
    processRawDataItem env item store tools =
      ⟨.ok ⟨false, some m, item.oid⟩,
       updateRaw store item.oid (markFailed m),
       tools ++ [⟨analysisPayload item raw, resolveLogoUrl item, item.oid⟩]⟩ ∧
    (markFailed m item).status = -1 := by
  refine ⟨?_, rfl⟩
  rw [processItem_spec env item store tools h2]
  have hsucc : attemptSucceeds env item = false := by
    simp [attemptSucceeds, ha, hv, h1]
  have hmsg : attemptMsg env item = m := by
    simp [attemptMsg, ha, hv, hs, h1]
  have hdoc : attemptDoc env item =
      some ⟨analysisPayload item raw, resolveLogoUrl item, item.oid⟩ := by
    simp [attemptDoc, ha, hv, hs]
  simp [resultOf, outcomeUpdate, hsucc, hmsg, hdoc]

set_option maxRecDepth 100000 in
/-- C4 witness: the amended behavior at a concrete run. -/
theorem update_failure_marks_failed_amended_witness :
    processRawDataItem envUpdate1Fails itemEx [itemEx] [] =
      ⟨.ok ⟨false, some "status write failed", itemEx.oid⟩,
       updateRaw [itemEx] itemEx.oid (markFailed "status write failed"),
       [] ++ [⟨analysisPayload itemEx "plain prose reply",
         resolveLogoUrl itemEx, itemEx.oid⟩]⟩ :=
  (update_failure_marks_failed_amended envUpdate1Fails itemEx [itemEx] []
    "plain prose reply" "status write failed" rfl (by decide) rfl rfl rfl).1

set_option maxRecDepth 100000 in
/-- C5 counterexample: a run in which the failure is the post-save status
update leaves the RawRecord Failed while an EnrichedRecord from that very
attempt exists, so a Failed RawRecord can have an EnrichedRecord. -/
theorem failed_without_record_counterexample :
    (processRawDataItem envUpdate1FailsB itemEx2 [itemEx2] []).store =
      [{ itemEx2 with
          status := -1, error_message := some "write timeout", error_at := true }] ∧
    ((processRawDataItem envUpdate1FailsB itemEx2 [itemEx2] []).tools).length = 1 := by
  refine ⟨by decide, by decide⟩

/-- C5 as amended.  On a hard invocation error, or on an exception at or
before the EnrichedRecord write (schema validation or the insert itself),
the RawRecord is updated to Failed with `error_message` and `error_at`
populated and no EnrichedRecord is created for the attempt; only when the
failure is the post-save status update does the attempt leave both a
Failed RawRecord and its EnrichedRecord behind. -/
theorem failure_marks_failed_amended (env : Env) (item : RawItem)
    (store : List RawItem) (tools : List ToolDoc)
    (h2 : env.update2 = none)
    (hfail : (∃ m, env.analysis = .error m) ∨
      (∃ raw, env.analysis = .ok raw ∧
        (validateTool (analysisPayload item raw) = false ∨ env.saveDb ≠ none))) :
    processRawDataItem env item store tools =
      ⟨.ok ⟨false, some (attemptMsg env item), item.oid⟩,
       updateRaw store item.oid (markFailed (attemptMsg env item)), tools⟩ ∧
    (markFailed (attemptMsg env item) item).status = -1 ∧
    (markFailed (attemptMsg env item) item).error_message =
      some (attemptMsg env item) ∧
    (markFailed (attemptMsg env item) item).error_at = true := by
  refine ⟨?_, rfl, rfl, rfl⟩
  rw [processItem_spec env item store tools h2]
  have hsucc : attemptSucceeds env item = false := by
    rcases hfail with ⟨m, hm⟩ | ⟨raw, hraw, hcase⟩
    · simp [attemptSucceeds, hm]
    · rcases hcase with hc | hc
      · simp [attemptSucceeds, hraw, hc]
      · rcases hn : env.saveDb with _ | m
        · exact absurd hn hc
        · simp [attemptSucceeds, hraw, hn]
  have hdoc : attemptDoc env item = none := by
    rcases hfail with ⟨m, hm⟩ | ⟨raw, hraw, hcase⟩
    · simp [attemptDoc, hm]
    · rcases hcase with hc | hc
      · simp [attemptDoc, hraw, hc]
      · rcases hn : env.saveDb with _ | m
        · exact absurd hn hc
        · simp [attemptDoc, hraw, hn]
  simp [resultOf, outcomeUpdate, hsucc, hdoc]

/-- C5 witness: a concrete hard invocation error ends Failed with the
error recorded and no Tool document written. -/
theorem failure_marks_failed_amended_witness :
    processRawDataItem envHardErr itemEx [itemEx] [] =
      ⟨.ok ⟨false, some "ECONNRESET", itemEx.oid⟩,
       updateRaw [itemEx] itemEx.oid (markFailed "ECONNRESET"), []⟩ :=
  (failure_marks_failed_amended envHardErr itemEx [itemEx] [] rfl
    (Or.inl ⟨"ECONNRESET", rfl⟩)).1

/-- C10.  The structural acceptance check is strictly weaker than the
persistence schema: a decoded payload can pass the acceptance check while
omitting `slug` (or `website`, `tagline`, `company`, `longDescription`),
every such payload fails schema validation, and the attempt it belongs to
ends with the RawRecord marked Failed rather than Processed, with no Tool
document written. -/
theorem schema_gap_claim :
    (validStructure jNoSlug = true ∧ jNoSlug.get? "slug" = none ∧
      validateTool jNoSlug = false) ∧
    (∀ j, validStructure j = true →
      (j.get? "slug" = none ∨ j.get? "website" = none ∨
       j.get? "tagline" = none ∨ j.get? "company" = none ∨
       j.get? "longDescription" = none) →
      validateTool j = false) ∧
    (∀ env item store tools raw, env.analysis = .ok raw →
      env.update2 = none →
      validateTool (analysisPayload item raw) = false →
      processRawDataItem env item store tools =
        ⟨.ok ⟨false, some validationErrMsg, item.oid⟩,
         updateRaw store item.oid (markFailed validationErrMsg), tools⟩ ∧
      (markFailed validationErrMsg item).status = -1) := by
  refine ⟨⟨rfl, rfl, rfl⟩, ?_, ?_⟩
  · intro j _ hmiss
    rcases hmiss with h | h | h | h | h <;> simp [validateTool, h, reqStr]
  · intro env item store tools raw ha h2 hv
    refine ⟨?_, rfl⟩
    rw [processItem_spec env item store tools h2]
    have hsucc : attemptSucceeds env item = false := by
      simp [attemptSucceeds, ha, hv]
    have hmsg : attemptMsg env item = validationErrMsg := by
      simp [attemptMsg, ha, hv]
    have hdoc : attemptDoc env item = none := by
      simp [attemptDoc, ha, hv]
    simp [resultOf, outcomeUpdate, hsucc, hmsg, hdoc]

set_option maxRecDepth 100000 in
/-- C10 witness: the schema-incomplete reply is accepted by the structural
check yet its attempt ends Failed with nothing persisted. -/
theorem schema_gap_witness :
    processRawDataItem envNoSlug itemEx [itemEx] [] =
      ⟨.ok ⟨false, some validationErrMsg, itemEx.oid⟩,
       updateRaw [itemEx] itemEx.oid (markFailed validationErrMsg), []⟩ :=
  (schema_gap_claim.2.2 envNoSlug itemEx [itemEx] [] rawNoSlug rfl rfl
    (by decide)).1

/-- C7.  A single-item trigger for an id with no Pending record (already
Processed, Failed, or absent) returns the distinct
already-processed-or-missing condition and leaves both stores untouched;
conversely, the route only fetches (and then processes) a record that is
Pending at fetch time. -/
theorem single_item_guard (envOf : Nat → Env) (id : Nat)
    (store : List RawItem) (tools : List ToolDoc) :
    ((∀ r ∈ store, r.oid = id → r.status ≠ 0) →
      processItemRoute envOf id store tools =
        (.alreadyProcessedOrMissing, store, tools)) ∧
    (∀ item, store.find? (fun r => r.oid = id && r.status = 0) = some item →
      item.oid = id ∧ item.status = 0 ∧ item ∈ store) := by
  constructor
  · intro h
    have hf : store.find? (fun r => r.oid = id && r.status = 0) = none := by
      apply List.find?_eq_none.mpr
      intro x hx
      simp only [Bool.and_eq_true, decide_eq_true_eq]
      rintro ⟨h1, hst⟩
      exact h x hx h1 hst
    simp [processItemRoute, hf]
  · intro item hf
    have hp := List.find?_some hf
    have hm := List.mem_of_find?_eq_some hf
    simp only [Bool.and_eq_true, decide_eq_true_eq] at hp
    exact ⟨hp.1, hp.2, hm⟩

/-- C7 witness: triggering an already-Processed id mutates nothing. -/
theorem single_item_guard_witness :
    processItemRoute (fun _ => envProse) 7 [itemDone] [] =
      (.alreadyProcessedOrMissing, [itemDone], []) :=
  (single_item_guard (fun _ => envProse) 7 [itemDone] []).1 (by decide)

/-- Both status writes preserve the record id. -/
theorem outcomeUpdate_oid (env : Env) (it r : RawItem) :
    (outcomeUpdate env it r).oid = r.oid := by
  unfold outcomeUpdate
  by_cases h : attemptSucceeds env it = true <;>
    simp [h, markProcessed, markFailed]

/-- A batch loop in which every catch-path status write succeeds returns
one result per selected item and performs the per-item writes in order. -/
theorem runBatch_ok (envOf : Nat → Env) (items : List RawItem)
    (store : List RawItem) (tools : List ToolDoc)
    (hu : ∀ it ∈ items, (envOf it.oid).update2 = none) :
    runBatch envOf items store tools =
      (.ok (items.map (fun it => resultOf (envOf it.oid) it)),
       applyAll envOf items store,
       tools ++ items.filterMap (fun it => attemptDoc (envOf it.oid) it)) := by
  induction items generalizing store tools with
  | nil => simp [runBatch, applyAll]
  | cons it rest ih =>
    have h2 := hu it (List.mem_cons_self it rest)
    simp only [runBatch]
    rw [processItem_spec (envOf it.oid) it store tools h2]
    rw [ih (updateRaw store it.oid (outcomeUpdate (envOf it.oid) it))
      (tools ++ (attemptDoc (envOf it.oid) it).toList)
      (fun x hx => hu x (List.mem_cons_of_mem _ hx))]
    cases hd : attemptDoc (envOf it.oid) it with
    | none => simp [applyAll, hd, List.filterMap_cons]
    | some d => simp [applyAll, hd, List.filterMap_cons]

/-- A unique match is what `find?` returns. -/
theorem find?_eq_some_of_unique {α : Type} {l : List α} {p : α → Bool} {a : α}
    (ha : a ∈ l) (hpa : p a = true)
    (huniq : ∀ x ∈ l, p x = true → x = a) : l.find? p = some a := by
  induction l with
  | nil => cases ha
  | cons b rest ih =>
    by_cases hb : p b = true
    · have hba : b = a := huniq b (List.mem_cons_self b rest) hb
      rw [List.find?_cons_of_pos _ hb, hba]
    · rw [List.find?_cons_of_neg _ (by simpa using hb)]
      have ha2 : a ∈ rest := by
        rcases List.mem_cons.mp ha with h | h
        · exact absurd (h ▸ hpa) hb
        · exact h
      exact ih ha2 (fun x hx hpx => huniq x (List.mem_cons_of_mem _ hx) hpx)

/-- With pairwise-distinct ids, the batch's sequence of writes acts as one
independent per-record update. -/
theorem applyAll_eq_map (envOf : Nat → Env) (items : List RawItem)
    (store : List RawItem) (hnd : (items.map RawItem.oid).Nodup) :
    applyAll envOf items store = store.map (applyFound envOf items) := by
  induction items generalizing store with
  | nil =>
    simp only [applyAll]
    rw [show applyFound envOf [] = fun r => r by
      funext r
      simp [applyFound, List.find?]]
    simp
  | cons it rest ih =>
    have hnd2 : (rest.map RawItem.oid).Nodup :=
      (List.nodup_cons.mp (by simpa using hnd)).2
    have hnotin : it.oid ∉ rest.map RawItem.oid :=
      (List.nodup_cons.mp (by simpa using hnd)).1
    simp only [applyAll]
    rw [ih _ hnd2]
    unfold updateRaw
    rw [List.map_map]
    apply List.map_congr_left
    intro r _
    simp only [Function.comp]
    by_cases h : r.oid = it.oid
    · rw [if_pos h]
      have hfr : rest.find? (fun x =>
          decide (x.oid = (outcomeUpdate (envOf it.oid) it r).oid)) = none := by
        apply List.find?_eq_none.mpr
        intro x hx
        simp only [decide_eq_true_eq]
        intro hxe
        rw [outcomeUpdate_oid] at hxe
        exact hnotin (List.mem_map.mpr ⟨x, hx, by rw [hxe, h]⟩)
      have hfc : (it :: rest).find? (fun x => decide (x.oid = r.oid)) = some it :=
        List.find?_cons_of_pos _ (by simp [h])
      simp only [applyFound, hfr, hfc]
    · rw [if_neg h]
      have hfc : (it :: rest).find? (fun x => decide (x.oid = r.oid)) =
          rest.find? (fun x => decide (x.oid = r.oid)) :=
        List.find?_cons_of_neg _ (by simp only [decide_eq_true_eq]; exact fun he => h he.symm)
      simp only [applyFound, hfc]

/-- The full pending batch, seen per record: every Pending record of a
store with pairwise-distinct ids ends in its attempt's terminal status,
every other record is untouched. -/
theorem batch_store_final (envOf : Nat → Env) (store : List RawItem)
    (hnd : (store.map RawItem.oid).Nodup) :
    applyAll envOf (store.filter (fun r => r.status = 0)) store =
      store.map (finalize envOf) := by
  have hsub : List.Sublist ((store.filter (fun r => r.status = 0)).map RawItem.oid)
      (store.map RawItem.oid) := (List.filter_sublist store).map RawItem.oid
  rw [applyAll_eq_map envOf _ store (hsub.nodup hnd)]
  apply List.map_congr_left
  intro r hr
  by_cases h0 : r.status = 0
  · have hrp : r ∈ store.filter (fun x => x.status = 0) :=
      List.mem_filter.mpr ⟨hr, by simp [h0]⟩
    have hfind : (store.filter (fun x => x.status = 0)).find?
        (fun it => decide (it.oid = r.oid)) = some r := by
      apply find?_eq_some_of_unique hrp (by simp)
      intro x hx hpx
      simp only [decide_eq_true_eq] at hpx
      exact List.inj_on_of_nodup_map hnd (List.mem_of_mem_filter hx) hr hpx
    simp only [applyFound, hfind, finalize, h0, if_pos]
  · have hfind : (store.filter (fun x => x.status = 0)).find?
        (fun it => decide (it.oid = r.oid)) = none := by
      apply List.find?_eq_none.mpr
      intro x hx
      simp only [decide_eq_true_eq]
      intro hxe
      have hxr : x = r :=
        List.inj_on_of_nodup_map hnd (List.mem_of_mem_filter hx) hr hxe
      have := List.of_mem_filter hx
      rw [hxr] at this
      simp at this
      exact h0 this
    simp [applyFound, hfind, finalize, h0]

/-- The filtered successes and failures partition the result list. -/
theorem filter_partition_length (l : List AttemptResult) :
    (l.filter (fun r => r.success)).length +
      (l.filter (fun r => !r.success)).length = l.length := by
  induction l with
  | nil => rfl
  | cons a rest ih =>
    cases h : a.success <;> simp [List.filter_cons, h] <;> omega

/-- C6.  Batch completeness under partial failure: over a store with
pairwise-distinct ids and a functioning record store, when the attempts
fail for a strict subset of the selected records the batch never aborts --
it returns one result per selected record, the summary satisfies
`processed + failed = N`, and per record exactly the failed attempts end
in Failed (-1) while the successful ones end Processed (1). -/
theorem batch_completeness (envOf : Nat → Env) (store : List RawItem)
    (tools : List ToolDoc)
    (hnd : (store.map RawItem.oid).Nodup)
    (hu : ∀ id, (envOf id).update2 = none)
    (_hstrict : ∃ r ∈ store, r.status = 0 ∧
      attemptSucceeds (envOf r.oid) r = true) :
    ∃ rs, processRawDataBatch envOf store tools =
        (.ok rs, store.map (finalize envOf),
         tools ++ (store.filter (fun r => r.status = 0)).filterMap
           (fun it => attemptDoc (envOf it.oid) it)) ∧
      rs = (store.filter (fun r => r.status = 0)).map
        (fun it => resultOf (envOf it.oid) it) ∧
      rs.length = (store.filter (fun r => r.status = 0)).length ∧
      (batchSummary rs).1 + (batchSummary rs).2 = rs.length ∧
      (∀ r ∈ store, r.status = 0 →
        ((finalize envOf r).status = 1 ↔
          attemptSucceeds (envOf r.oid) r = true) ∧
        ((finalize envOf r).status = -1 ↔
          attemptSucceeds (envOf r.oid) r = false)) := by
  refine ⟨(store.filter (fun r => r.status = 0)).map
    (fun it => resultOf (envOf it.oid) it), ?_, rfl, by simp, ?_, ?_⟩
  · rw [processRawDataBatch,
      runBatch_ok envOf _ store tools (fun it _ => hu it.oid),
      batch_store_final envOf store hnd]
  · exact filter_partition_length _
  · intro r _ h0
    have hfin : finalize envOf r = outcomeUpdate (envOf r.oid) r r := by
      simp [finalize, h0]
    rw [hfin]
    unfold outcomeUpdate
    by_cases hsu : attemptSucceeds (envOf r.oid) r = true <;>
      simp [hsu, markProcessed, markFailed]

set_option maxRecDepth 100000 in
/-- C6 witness: a two-record batch where the collaborator fails for the
second record only ends with record 1 Processed and record 2 Failed. -/
theorem batch_completeness_witness :
    (processRawDataBatch envOfEx [itemEx, itemEx2] []).2.1 =
      [itemEx, itemEx2].map (finalize envOfEx) ∧
    [itemEx, itemEx2].map (finalize envOfEx) =
      [markProcessed itemEx, markFailed "ECONNRESET" itemEx2] := by
  obtain ⟨rs, h1, -⟩ := batch_completeness envOfEx [itemEx, itemEx2] []
    (by decide)
    (by
      intro id
      by_cases h : id = 1 <;> simp [envOfEx, h, envProse, envHardErr])
    ⟨itemEx, by decide, by decide, by decide⟩
  constructor
  · rw [h1]
  · decide

/-- Whatever the effect outcomes, one attempt either leaves the record
store alone or applies a single keyed status write. -/
theorem processItem_store_shape (env : Env) (item : RawItem)
    (store : List RawItem) (tools : List ToolDoc) :
    (processRawDataItem env item store tools).store = store ∨
    (processRawDataItem env item store tools).store =
      updateRaw store item.oid markProcessed ∨
    ∃ m, (processRawDataItem env item store tools).store =
      updateRaw store item.oid (markFailed m) := by
  rcases h2 : env.update2 with _ | m2
  · rw [processItem_spec env item store tools h2]
    unfold outcomeUpdate
    by_cases hsu : attemptSucceeds env item = true
    · right; left; simp [hsu]
    · right; right
      exact ⟨attemptMsg env item, by simp [hsu]⟩
  · rcases ha : env.analysis with m | raw
    · left
      simp [processRawDataItem, getAIAnalysis, ha, catchPath, h2]
    · by_cases hv : validateTool (analysisPayload item raw) = true
      · simp only [analysisPayload] at hv
        rcases hs : env.saveDb with _ | m
        · rcases h1 : env.update1 with _ | m
          · right; left
            simp [processRawDataItem, getAIAnalysis, ha, hv, hs, h1]
          · left
            simp [processRawDataItem, getAIAnalysis, ha, hv, hs, h1,
              catchPath, h2]
        · left
          simp [processRawDataItem, getAIAnalysis, ha, hv, hs, catchPath, h2]
      · have hv2 : validateTool (getAIAnalysisPayload (some (resolveToolName item))
            (some (resolveAppUrl item)) raw) = false := by
          simpa [analysisPayload] using hv
        left
        simp [processRawDataItem, getAIAnalysis, ha, hv2, catchPath, h2]

/-- A record whose id the attempt does not target stays in the store. -/
theorem processItem_keeps (env : Env) (item : RawItem)
    (store : List RawItem) (tools : List ToolDoc) (r : RawItem)
    (hr : r ∈ store) (hne : item.oid ≠ r.oid) :
    r ∈ (processRawDataItem env item store tools).store := by
  have hupd : ∀ f, r ∈ updateRaw store item.oid f := by
    intro f
    unfold updateRaw
    refine List.mem_map.mpr ⟨r, hr, ?_⟩
    rw [if_neg (fun h => hne h.symm)]
  rcases processItem_store_shape env item store tools with h | h | ⟨m, h⟩
  · rw [h]; exact hr
  · rw [h]; exact hupd _
  · rw [h]; exact hupd _

/-- A record targeted by none of the loop's items survives the whole
loop unchanged, whether or not the loop aborts. -/
theorem runBatch_keeps (envOf : Nat → Env) (items : List RawItem)
    (store : List RawItem) (tools : List ToolDoc) (r : RawItem)
    (hr : r ∈ store) (hne : ∀ it ∈ items, it.oid ≠ r.oid) :
    r ∈ (runBatch envOf items store tools).2.1 := by
  induction items generalizing store tools with
  | nil => simpa [runBatch] using hr
  | cons it rest ih =>
    simp only [runBatch]
    have hr1 : r ∈ (processRawDataItem (envOf it.oid) it store tools).store :=
      processItem_keeps _ _ _ _ _ hr (hne it (List.mem_cons_self it rest))
    rcases hres : (processRawDataItem (envOf it.oid) it store tools).result
      with m | rr
    · simpa [hres] using hr1
    · have hrec := ih (processRawDataItem (envOf it.oid) it store tools).store
        (processRawDataItem (envOf it.oid) it store tools).tools hr1
        (fun x hx => hne x (List.mem_cons_of_mem _ hx))
      rcases hrb : runBatch envOf rest
          (processRawDataItem (envOf it.oid) it store tools).store
          (processRawDataItem (envOf it.oid) it store tools).tools
        with ⟨res, s, t⟩
      rw [hrb] at hrec
      cases res <;> simpa [hres, hrb] using hrec

/-- Every record in the store an attempt leaves behind is either an
original record or carries one of the two terminal statuses. -/
theorem processItem_writes (env : Env) (item : RawItem)
    (store : List RawItem) (tools : List ToolDoc) (r : RawItem)
    (hr : r ∈ (processRawDataItem env item store tools).store) :
    r ∈ store ∨ r.status = 1 ∨ r.status = -1 := by
  have hupd : ∀ f, (∀ x, (f x).status = 1 ∨ (f x).status = -1) →
      r ∈ updateRaw store item.oid f → r ∈ store ∨ r.status = 1 ∨ r.status = -1 := by
    intro f hf hm
    rcases List.mem_map.mp hm with ⟨x, hx, hxe⟩
    by_cases hid : x.oid = item.oid
    · rw [if_pos hid] at hxe
      right
      rw [← hxe]
      exact hf x
    · rw [if_neg hid] at hxe
      left
      rw [← hxe]
      exact hx
  rcases processItem_store_shape env item store tools with h | h | ⟨m, h⟩
  · rw [h] at hr; exact .inl hr
  · rw [h] at hr
    exact hupd _ (fun x => .inl rfl) hr
  · rw [h] at hr
    exact hupd _ (fun x => .inr rfl) hr

/-- Every record the whole loop leaves behind is an original record or
carries a terminal status. -/
theorem runBatch_writes (envOf : Nat → Env) (items : List RawItem)
    (store : List RawItem) (tools : List ToolDoc) (r : RawItem)
    (hr : r ∈ (runBatch envOf items store tools).2.1) :
    r ∈ store ∨ r.status = 1 ∨ r.status = -1 := by
  induction items generalizing store tools with
  | nil => exact .inl (by simpa [runBatch] using hr)
  | cons it rest ih =>
    simp only [runBatch] at hr
    rcases hres : (processRawDataItem (envOf it.oid) it store tools).result
      with m | rr
    · rw [hres] at hr
      exact processItem_writes _ _ _ _ _ (by simpa using hr)
    · rw [hres] at hr
      rcases hrb : runBatch envOf rest
          (processRawDataItem (envOf it.oid) it store tools).store
          (processRawDataItem (envOf it.oid) it store tools).tools
        with ⟨res, s, t⟩
      rw [hrb] at hr
      have hr2 : r ∈ (runBatch envOf rest
          (processRawDataItem (envOf it.oid) it store tools).store
          (processRawDataItem (envOf it.oid) it store tools).tools).2.1 := by
        rw [hrb]
        cases res <;> simpa using hr
      rcases ih _ _ hr2 with hin | hterm
      · exact processItem_writes _ _ _ _ _ hin
      · exact .inr hterm

/-- C9.  Terminal statuses are idempotent under the batch trigger: over a
store with pairwise-distinct ids, a Processed (1) or Failed (-1) record is
not selected by the `status = 0` batch filter and survives a batch run
unchanged, and every record the run leaves behind is either an original
record or one written with exactly the encoded terminal values 1 or -1. -/
theorem terminal_idempotence (envOf : Nat → Env) (store : List RawItem)
    (tools : List ToolDoc) (r : RawItem)
    (hnd : (store.map RawItem.oid).Nodup) (hr : r ∈ store)
    (hterm : r.status = 1 ∨ r.status = -1) :
    r ∉ store.filter (fun x => x.status = 0) ∧
    r ∈ (processRawDataBatch envOf store tools).2.1 ∧
    (∀ x, x ∈ (processRawDataBatch envOf store tools).2.1 →
      x ∈ store ∨ x.status = 1 ∨ x.status = -1) := by
  have hne : ∀ it ∈ store.filter (fun x => x.status = 0), it.oid ≠ r.oid := by
    intro it hit hoe
    have hit2 := List.mem_of_mem_filter hit
    have hitr : it = r := List.inj_on_of_nodup_map hnd hit2 hr hoe
    have hst := List.of_mem_filter hit
    rw [hitr] at hst
    simp only [decide_eq_true_eq] at hst
    rcases hterm with h | h <;> omega
  refine ⟨?_, runBatch_keeps envOf _ store tools r hr hne,
    fun x hx => runBatch_writes envOf _ store tools x hx⟩
  intro hmem
  have := List.of_mem_filter hmem
  simp only [decide_eq_true_eq] at this
  rcases hterm with h | h <;> omega

/-- C9 witness: a Processed record survives a concrete batch run over a
mixed store. -/
theorem terminal_idempotence_witness :
    itemDone ∉ [itemDone, itemEx].filter (fun x => x.status = 0) ∧
    itemDone ∈ (processRawDataBatch envOfEx [itemDone, itemEx] []).2.1 :=
  have h := terminal_idempotence envOfEx [itemDone, itemEx] [] itemDone
    (by decide) (by decide) (by decide)
  ⟨h.1, h.2.1⟩

/-- A list whose leading trim is itself starts with a non-whitespace
character. -/
theorem trimL_fix_head (c : Char) (rest : List Char)
    (h : trimL (c :: rest) = c :: rest) : isJsWs c = false := by
  by_contra hc
  have hws : isJsWs c = true := by simpa using hc
  have h2 : trimL (c :: rest) = rest.dropWhile isJsWs := by
    simp [trimL, List.dropWhile_cons, hws]
  rw [h] at h2
  have hlen : (rest.dropWhile isJsWs).length ≤ rest.length :=
    (List.dropWhile_sublist _).length_le
  have := congrArg List.length h2
  simp at this
  omega

/-- Trailing trim keeps a list that ends in a non-whitespace character. -/
theorem trimR_snoc_nonws (l : List Char) (c : Char) (hc : isJsWs c = false) :
    trimR (l ++ [c]) = l ++ [c] := by
  induction l with
  | nil => simp [trimR, hc]
  | cons a rest ih =>
    rw [List.cons_append, trimR, ih]
    cases hrest : rest ++ [c] with
    | nil => exact absurd hrest (by simp)
    | cons x xs => rfl

/-- Trailing trim absorbs a trailing whitespace character. -/
theorem trimR_snoc_ws (l : List Char) (c : Char) (hc : isJsWs c = true) :
    trimR (l ++ [c]) = trimR l := by
  induction l with
  | nil => simp [trimR, hc]
  | cons a rest ih =>
    rw [List.cons_append, trimR, ih, trimR]

/-- Removing the trailing fence from a fence-free payload followed by a
newline and the closing fence leaves the payload and the newline. -/
theorem strip_concat (l : List Char) (h : noTriple l = true) :
    stripTrailingFenceAux (l ++ ['\n', '`', '`', '`']) = l ++ ['\n'] := by
  induction l with
  | nil => decide
  | cons c mid ih =>
    have hparts : startsTriple (c :: mid) = false ∧ noTriple mid = true := by
      have h2 := h
      simp only [noTriple, Bool.and_eq_true, Bool.not_eq_true'] at h2
      exact h2
    have hfe : fenceToEnd (c :: (mid ++ ['\n', '`', '`', '`'])) = false := by
      cases mid with
      | nil => simp [fenceToEnd]
      | cons a mid2 =>
        cases mid2 with
        | nil => simp [fenceToEnd]
        | cons b mid3 =>
          have hst : (decide (c = '`') && decide (a = '`') && decide (b = '`')) = false := by
            simpa [startsTriple] using hparts.1
          simp only [List.cons_append, fenceToEnd, hst, Bool.false_and]
    simp only [List.cons_append, stripTrailingFenceAux]
    rw [if_neg (by simp [hfe])]
    simp only [List.append_eq]
    rw [ih hparts.2]

/-- The cleanup recovers a trim-stable, fence-free payload from a fenced
block tagged `json`. -/
theorem cleanContentL_json_fence (l : List Char)
    (h1 : trimL l = l) (h2 : trimR l = l) (hNoF : noTriple l = true) :
    cleanContentL ('`' :: '`' :: '`' :: 'j' :: 's' :: 'o' :: 'n' :: '\n' ::
      (l ++ ['\n', '`', '`', '`'])) = l := by
  cases l with
  | nil => decide
  | cons c mid =>
    have hc : isJsWs c = false := trimL_fix_head c mid h1
    have hA : jsTrim ('`' :: '`' :: '`' :: 'j' :: 's' :: 'o' :: 'n' :: '\n' ::
        ((c :: mid) ++ ['\n', '`', '`', '`'])) =
        '`' :: '`' :: '`' :: 'j' :: 's' :: 'o' :: 'n' :: '\n' ::
        ((c :: mid) ++ ['\n', '`', '`', '`']) := by
      unfold jsTrim
      rw [show trimL ('`' :: '`' :: '`' :: 'j' :: 's' :: 'o' :: 'n' :: '\n' ::
          ((c :: mid) ++ ['\n', '`', '`', '`'])) =
          '`' :: '`' :: '`' :: 'j' :: 's' :: 'o' :: 'n' :: '\n' ::
          ((c :: mid) ++ ['\n', '`', '`', '`']) by
        simp [trimL, List.dropWhile_cons, show isJsWs '`' = false from rfl]]
      rw [show '`' :: '`' :: '`' :: 'j' :: 's' :: 'o' :: 'n' :: '\n' ::
          ((c :: mid) ++ ['\n', '`', '`', '`']) =
          ('`' :: '`' :: '`' :: 'j' :: 's' :: 'o' :: 'n' :: '\n' ::
          ((c :: mid) ++ ['\n', '`'])) ++ ['`', '`'] by simp]
      rw [show (('`' :: '`' :: '`' :: 'j' :: 's' :: 'o' :: 'n' :: '\n' ::
          ((c :: mid) ++ ['\n', '`'])) ++ ['`', '`'] : List Char) =
          (('`' :: '`' :: '`' :: 'j' :: 's' :: 'o' :: 'n' :: '\n' ::
          ((c :: mid) ++ ['\n', '`'])) ++ ['`']) ++ ['`'] by simp]
      rw [trimR_snoc_nonws _ _ (by decide)]
    simp only [cleanContentL]
    rw [hA]
    rw [if_pos (by rfl)]
    rw [show ('`' :: '`' :: '`' :: 'j' :: 's' :: 'o' :: 'n' :: '\n' ::
        ((c :: mid) ++ ['\n', '`', '`', '`'])).drop 7 =
        '\n' :: ((c :: mid) ++ ['\n', '`', '`', '`']) from rfl]
    rw [show trimL ('\n' :: ((c :: mid) ++ ['\n', '`', '`', '`'])) =
        (c :: mid) ++ ['\n', '`', '`', '`'] by
      simp [trimL, List.dropWhile_cons, List.cons_append, hc,
        show isJsWs '\n' = true from rfl]]
    rw [strip_concat _ hNoF]
    unfold jsTrim
    rw [show trimL ((c :: mid) ++ ['\n']) = (c :: mid) ++ ['\n'] by
      simp [trimL, List.dropWhile_cons, List.cons_append, hc]]
    rw [trimR_snoc_ws _ _ (by decide), h2]

/-- The cleanup recovers a trim-stable, fence-free payload from a bare
fenced block. -/
theorem cleanContentL_bare_fence (l : List Char)
    (h1 : trimL l = l) (h2 : trimR l = l) (hNoF : noTriple l = true) :
    cleanContentL ('`' :: '`' :: '`' :: '\n' ::
      (l ++ ['\n', '`', '`', '`'])) = l := by
  cases l with
  | nil => decide
  | cons c mid =>
    have hc : isJsWs c = false := trimL_fix_head c mid h1
    have hA : jsTrim ('`' :: '`' :: '`' :: '\n' ::
        ((c :: mid) ++ ['\n', '`', '`', '`'])) =
        '`' :: '`' :: '`' :: '\n' :: ((c :: mid) ++ ['\n', '`', '`', '`']) := by
      unfold jsTrim
      rw [show trimL ('`' :: '`' :: '`' :: '\n' ::
          ((c :: mid) ++ ['\n', '`', '`', '`'])) =
          '`' :: '`' :: '`' :: '\n' :: ((c :: mid) ++ ['\n', '`', '`', '`']) by
        simp [trimL, List.dropWhile_cons, show isJsWs '`' = false from rfl]]
      rw [show '`' :: '`' :: '`' :: '\n' ::
          ((c :: mid) ++ ['\n', '`', '`', '`']) =
          (('`' :: '`' :: '`' :: '\n' :: ((c :: mid) ++ ['\n', '`'])) ++ ['`']) ++ ['`']
        by simp]
      rw [trimR_snoc_nonws _ _ (by decide)]
    simp only [cleanContentL]
    rw [hA]
    have hfalse : ("```json".data).isPrefixOf ('`' :: '`' :: '`' :: '\n' ::
        ((c :: mid) ++ ['\n', '`', '`', '`'])) = false := rfl
    rw [if_neg (by simp [hfalse])]
    rw [if_pos (by rfl)]
    rw [show ('`' :: '`' :: '`' :: '\n' ::
        ((c :: mid) ++ ['\n', '`', '`', '`'])).drop 3 =
        '\n' :: ((c :: mid) ++ ['\n', '`', '`', '`']) from rfl]
    rw [show trimL ('\n' :: ((c :: mid) ++ ['\n', '`', '`', '`'])) =
        (c :: mid) ++ ['\n', '`', '`', '`'] by
      simp [trimL, List.dropWhile_cons, List.cons_append, hc,
        show isJsWs '\n' = true from rfl]]
    rw [strip_concat _ hNoF]
    unfold jsTrim
    rw [show trimL ((c :: mid) ++ ['\n']) = (c :: mid) ++ ['\n'] by
      simp [trimL, List.dropWhile_cons, List.cons_append, hc]]
    rw [trimR_snoc_ws _ _ (by decide), h2]

/-- C3 as amended.  For a reply wrapped in a fenced block with the `json`
language tag or with no tag, whose enclosed trim-stable text contains no
fence of its own and decodes to an accepted payload, the cleanup strips
the leading and trailing fences exactly, the decode succeeds, and the
resulting payload equals the enclosed data with no fallback; a fence with
any other language tag leaves the tag text in place, so its decode fails
(see the counterexample). -/
theorem fenced_block_amended (tn au : Option String) (s : String) (j : Json)
    (h1 : trimL s.data = s.data) (h2 : trimR s.data = s.data)
    (hNoF : noTriple s.data = true)
    (hparse : jsonParse s = some j) (hvalid : validStructure j = true) :
    cleanContent ("```json\n" ++ s ++ "\n```") = s ∧
    cleanContent ("```\n" ++ s ++ "\n```") = s ∧
    getAIAnalysisPayload tn au ("```json\n" ++ s ++ "\n```") = j ∧
    getAIAnalysisPayload tn au ("```\n" ++ s ++ "\n```") = j := by
  have hdata1 : ("```json\n" ++ s ++ "\n```").data =
      '`' :: '`' :: '`' :: 'j' :: 's' :: 'o' :: 'n' :: '\n' ::
        (s.data ++ ['\n', '`', '`', '`']) := by
    show ("```json\n".data ++ s.data) ++ "\n```".data = _
    rw [List.append_assoc]
    rfl
  have hdata2 : ("```\n" ++ s ++ "\n```").data =
      '`' :: '`' :: '`' :: '\n' :: (s.data ++ ['\n', '`', '`', '`']) := by
    show ("```\n".data ++ s.data) ++ "\n```".data = _
    rw [List.append_assoc]
    rfl
  have hc1 : cleanContent ("```json\n" ++ s ++ "\n```") = s := by
    show (⟨cleanContentL ("```json\n" ++ s ++ "\n```").data⟩ : String) = s
    rw [hdata1, cleanContentL_json_fence s.data h1 h2 hNoF]
  have hc2 : cleanContent ("```\n" ++ s ++ "\n```") = s := by
    show (⟨cleanContentL ("```\n" ++ s ++ "\n```").data⟩ : String) = s
    rw [hdata2, cleanContentL_bare_fence s.data h1 h2 hNoF]
  refine ⟨hc1, hc2, ?_, ?_⟩
  · simp [getAIAnalysisPayload, hc1, hparse, hvalid]
  · simp [getAIAnalysisPayload, hc2, hparse, hvalid]

set_option maxRecDepth 400000 in
/-- C3 witness: a concrete fenced reply (both fence shapes) decodes to the
enclosed payload with no fallback. -/
theorem fenced_block_amended_witness :
    cleanContent ("```json\n" ++ rawFull ++ "\n```") = rawFull ∧
    getAIAnalysisPayload (some "T") (some "u")
      ("```json\n" ++ rawFull ++ "\n```") = jFull ∧
    getAIAnalysisPayload (some "T") (some "u")
      ("```\n" ++ rawFull ++ "\n```") = jFull := by
  obtain ⟨hA, -, hB, hC⟩ := fenced_block_amended (some "T") (some "u")
    rawFull jFull (by decide) (by decide) (by decide) (by rfl) (by rfl)
  exact ⟨hA, hB, hC⟩

set_option maxRecDepth 400000 in
/-- C3 counterexample: a fenced block with the language tag `js` around
otherwise-valid structured data is not recovered -- only the backticks are
stripped, the tag text survives, the decode fails and the fallback (not
the enclosed data) is returned. -/
theorem fenced_block_counterexample :
    jsonParse rawNoSlug = some jNoSlug ∧
    validStructure jNoSlug = true ∧
    cleanContent fencedJsEx = "js\n" ++ rawNoSlug ∧
    jsonParse (cleanContent fencedJsEx) = none ∧
    getAIAnalysisPayload (some "T") (some "u") fencedJsEx =
      fallbackPayload "T" "u" (cleanContent fencedJsEx) ∧
    getAIAnalysisPayload (some "T") (some "u") fencedJsEx ≠ jNoSlug := by
  refine ⟨rfl, rfl, rfl, rfl, rfl, ?_⟩
  intro h
  have hslug : Json.get? (getAIAnalysisPayload (some "T") (some "u") fencedJsEx)
      "slug" = Json.get? jNoSlug "slug" := by rw [h]
  rw [show Json.get? (getAIAnalysisPayload (some "T") (some "u") fencedJsEx)
      "slug" = some (Json.str "t") from rfl] at hslug
  rw [show Json.get? jNoSlug "slug" = none from rfl] at hslug
  cases hslug

end AIScript
